import Mathlib

/-!
Verification of the JapanesePDFTranslator core (src/sensei/pdf_to_html.py and
src/sensei/pic_extract.py) against its specification.

The Python code is shallowly embedded: coordinates (Python floats) become
exact rationals, per-page PDF data becomes explicit lists, the filesystem
becomes an explicit list of existing paths, and PNG byte buffers are
abstracted to the rotation that was applied to the decoded bitmap (the only
observable property of the buffer that the specification talks about).
Python's stable `list.sort(key=...)` is modelled by a stable insertion sort
over the key order.
-/

attribute [local semireducible] Rat.add Rat.sub Rat.mul

namespace JPdf

/-- Python's `abs` on the rational model of floats. -/
def pyAbs (q : ℚ) : ℚ := if q < 0 then -q else q

/-- Python's `min` over a non-empty list (the `[]` case is never reached by
the embedded code, which guards every call by non-emptiness). -/
def listMin : List ℚ → ℚ
  | [] => 0
  | a :: as => as.foldl min a

/-- Python's `max` over a non-empty list. -/
def listMax : List ℚ → ℚ
  | [] => 0
  | a :: as => as.foldl max a

/-- `PDFTextBlock` from src/sensei/pdf_to_html.py: one positioned text
fragment. -/
structure PDFTextBlock where
  text : String
  x : ℚ
  y : ℚ
  width : ℚ
  height : ℚ
  page : Nat
deriving DecidableEq, Repr

/-- One pdfplumber character record: the fields `text`, `x0`, `x1`, `y0`,
`y1` read by `extract_text_with_positions` and
`_create_text_block_from_chars`. -/
structure CharRec where
  text : String
  x0 : ℚ
  x1 : ℚ
  y0 : ℚ
  y1 : ℚ
deriving DecidableEq, Repr

/-- The x-coordinate list `[char['x0'] for ...] + [char['x1'] for ...]` of
`_create_text_block_from_chars`. -/
def xCoordsOf (chars : List CharRec) : List ℚ :=
  chars.map CharRec.x0 ++ chars.map CharRec.x1

/-- The y-coordinate list of `_create_text_block_from_chars`. -/
def yCoordsOf (chars : List CharRec) : List ℚ :=
  chars.map CharRec.y0 ++ chars.map CharRec.y1

/-- `_create_text_block_from_chars(chars, page_num)`: concatenate the
characters' text and take the min/max envelope of their coordinates. -/
def create_text_block_from_chars (chars : List CharRec) (pageNum : Nat) : PDFTextBlock :=
  let text := String.join (chars.map CharRec.text)
  let x := listMin (xCoordsOf chars)
  let y := listMin (yCoordsOf chars)
  let width := listMax (xCoordsOf chars) - x
  let height := listMax (yCoordsOf chars) - y
  { text := text, x := x, y := y, width := width, height := height, page := pageNum }

/-- The character loop of `extract_text_with_positions` for one page.  The
state is Python's `(current_line, current_y)` pair: `none` is the initial
`current_y is None` state, and in `some (line, refy)` the accumulator `line`
is non-empty (Python's `if current_line:` guards are therefore always
taken).  The line tolerance is the hard-coded `tolerance = 2`. -/
def groupLineLoop (pageNum : Nat) : List CharRec → Option (List CharRec × ℚ) → List PDFTextBlock
  | [], none => []
  | [], some st => [create_text_block_from_chars st.1 pageNum]
  | c :: cs, none => groupLineLoop pageNum cs (some ([c], c.y0))
  | c :: cs, some st =>
    if pyAbs (c.y0 - st.2) ≤ 2 then
      groupLineLoop pageNum cs (some (st.1 ++ [c], st.2))
    else
      create_text_block_from_chars st.1 pageNum :: groupLineLoop pageNum cs (some ([c], c.y0))

/-- Line grouping of one page's characters (the body of the per-page loop of
`extract_text_with_positions`). -/
def groupChars (pageNum : Nat) (chars : List CharRec) : List PDFTextBlock :=
  groupLineLoop pageNum chars none

/-- The pdfplumber phase of `extract_text_with_positions`: a document is the
list of its pages' character lists, in page order. -/
def extract_text_layer (doc : List (List CharRec)) : List PDFTextBlock :=
  (doc.enum.map fun pc => groupChars pc.1 pc.2).flatten

/-- The `if not text_blocks:` test that decides whether
`extract_text_with_ocr` is called. -/
def ocr_invoked (doc : List (List CharRec)) : Bool :=
  (extract_text_layer doc).isEmpty

/-- `extract_text_with_positions`, with the OCR path (an external
capability) supplied as the fragment list `ocrBlocks` it would return. -/
def extract_text_with_positions (doc : List (List CharRec)) (ocrBlocks : List PDFTextBlock) :
    List PDFTextBlock :=
  if (extract_text_layer doc).isEmpty then ocrBlocks else extract_text_layer doc

/-- The sort key order of `blocks.sort(key=lambda b: (-b.x, b.y))`:
lexicographic on `(-x, y)`. -/
def sortKeyLe (a b : PDFTextBlock) : Prop :=
  b.x < a.x ∨ (a.x = b.x ∧ a.y ≤ b.y)

instance : DecidableRel sortKeyLe := fun a b =>
  inferInstanceAs (Decidable (b.x < a.x ∨ (a.x = b.x ∧ a.y ≤ b.y)))

instance : IsTotal PDFTextBlock sortKeyLe where
  total a b := by
    rcases lt_trichotomy a.x b.x with h | h | h
    · exact Or.inr (Or.inl h)
    · rcases le_total a.y b.y with hy | hy
      · exact Or.inl (Or.inr ⟨h, hy⟩)
      · exact Or.inr (Or.inr ⟨h.symm, hy⟩)
    · exact Or.inl (Or.inl h)

instance : IsTrans PDFTextBlock sortKeyLe where
  trans a b c hab hbc := by
    rcases hab with h1 | ⟨e1, y1⟩
    · rcases hbc with h2 | ⟨e2, _⟩
      · exact Or.inl (h2.trans h1)
      · exact Or.inl (e2 ▸ h1)
    · rcases hbc with h2 | ⟨e2, y2⟩
      · exact Or.inl (e1 ▸ h2)
      · exact Or.inr ⟨e1.trans e2, y1.trans y2⟩

/-- `blocks.sort(key=lambda b: (-b.x, b.y))`: Python's stable sort modelled
by a stable insertion sort over the key order. -/
def sortBlocks (blocks : List PDFTextBlock) : List PDFTextBlock :=
  List.insertionSort sortKeyLe blocks

/-- The key order of `sorted(column, key=lambda b: b.y)`. -/
def yOrder (a b : PDFTextBlock) : Prop := a.y ≤ b.y

instance : DecidableRel yOrder := fun a b =>
  inferInstanceAs (Decidable (a.y ≤ b.y))

instance : IsTotal PDFTextBlock yOrder where
  total a b := le_total a.y b.y

instance : IsTrans PDFTextBlock yOrder where
  trans _ _ _ hab hbc := le_trans hab hbc

/-- `sorted(current_column, key=lambda b: b.y)`. -/
def sortByY (col : List PDFTextBlock) : List PDFTextBlock :=
  List.insertionSort yOrder col

/-- The column-clustering loop of `convert_layout`.  The second argument is
Python's `current_column` (non-empty once started, its head being the
column anchor `current_column[0]`); completed columns are emitted sorted by
`y`.  `tol` is the hard-coded `tolerance = 50`. -/
def clusterLoop (tol : ℚ) : List PDFTextBlock → List PDFTextBlock → List (List PDFTextBlock)
  | [], [] => []
  | [], c :: cs => [sortByY (c :: cs)]
  | b :: bs, [] => clusterLoop tol bs [b]
  | b :: bs, c :: cs =>
    if pyAbs (b.x - c.x) ≤ tol then
      clusterLoop tol bs (c :: cs ++ [b])
    else
      sortByY (c :: cs) :: clusterLoop tol bs [b]

/-- Column clustering of an (already sorted) page's blocks, starting from
the empty `current_column`. -/
def clusterColumns (tol : ℚ) (blocks : List PDFTextBlock) : List (List PDFTextBlock) :=
  clusterLoop tol blocks []

/-- The per-page body of `convert_layout`: sort by `(-x, y)`, cluster into
columns (tolerance 50), reverse the column order, flatten. -/
def convertPage (blocks : List PDFTextBlock) : List PDFTextBlock :=
  ((clusterColumns 50 (sortBlocks blocks)).reverse).flatten

/-- Key insertion into a Python dict's key sequence (first-occurrence
order). -/
def insertKey (ks : List Nat) (k : Nat) : List Nat :=
  if k ∈ ks then ks else ks ++ [k]

/-- The key sequence of the `pages` dict built by `convert_layout` (and by
`generate_html`): page indices in first-occurrence order. -/
def pageKeys (blocks : List PDFTextBlock) : List Nat :=
  blocks.foldl (fun ks b => insertKey ks b.page) []

/-- The value `pages[p]` of that dict: the page's blocks in input order. -/
def pageGroup (blocks : List PDFTextBlock) (p : Nat) : List PDFTextBlock :=
  blocks.filter (fun b => b.page == p)

/-- `convert_layout(text_blocks)`: group by page, reorder each page, and
concatenate the pages in dict (first-occurrence) order. -/
def convert_layout (blocks : List PDFTextBlock) : List PDFTextBlock :=
  ((pageKeys blocks).map fun p => convertPage (pageGroup blocks p)).flatten

/-- A PyMuPDF image placement rectangle (`page.get_image_rects(img)[0]`),
with `x0`, `y0`, `width`, `height` as read by `extract_images`. -/
structure FitzRect where
  x0 : ℚ
  y0 : ℚ
  width : ℚ
  height : ℚ
deriving DecidableEq, Repr

/-- One embedded image reference of a page: the pixmap channel data
(`pix.n`, `pix.alpha`, `pix.width`, `pix.height`) and the optional
placement rectangle. -/
structure PageImageRef where
  pixN : Int
  pixAlpha : Int
  pixWidth : ℚ
  pixHeight : ℚ
  rect : Option FitzRect
deriving DecidableEq, Repr

/-- A PyMuPDF page handle as consumed by `extract_images`: its declared
rotation, its `page.rect` dimensions, and its embedded image references. -/
structure PageHandle where
  rotation : Int
  rectWidth : ℚ
  rectHeight : ℚ
  imageRefs : List PageImageRef
deriving DecidableEq, Repr

/-- The angle handed to `PIL.Image.rotate` by the rotation branch shared by
`extract_images` in both modules: 180 → 180, 90 → −90, 270 → 90, anything
else → no rotate call (angle 0). -/
def rotatePILAngle (rotation : Int) : Int :=
  if rotation = 180 then 180
  else if rotation = 90 then -90
  else if rotation = 270 then 90
  else 0

/-- `PDFImage` from src/sensei/pdf_to_html.py.  The PNG byte buffer
`image_data` is abstracted to its two observable properties: whether a
CMYK→RGB conversion was performed, and which rotation angle (if any) was
applied to the decoded bitmap before re-encoding (`none` when the page
rotation is 0 and the buffer is passed through untouched). -/
structure PDFImage where
  appliedRot : Option Int
  cmykConverted : Bool
  x : ℚ
  y : ℚ
  width : ℚ
  height : ℚ
  page : Nat
deriving DecidableEq, Repr

/-- The per-image body of `PDFToHTMLConverter.extract_images`: color-space
normalization, bitmap rotation for non-zero page rotation, and the position
rectangle (reflected on both axes only for rotation 180, falling back to
the origin with the raw pixel dimensions when no placement rectangle is
available). -/
def processImage (pageNum : Nat) (page : PageHandle) (img : PageImageRef) : PDFImage :=
  let cmykConverted := if img.pixN - img.pixAlpha < 4 then false else true
  let appliedRot : Option Int :=
    if page.rotation ≠ 0 then some (rotatePILAngle page.rotation) else none
  match img.rect with
  | some r =>
    if page.rotation = 180 then
      { appliedRot := appliedRot, cmykConverted := cmykConverted,
        x := page.rectWidth - r.x0 - r.width, y := page.rectHeight - r.y0 - r.height,
        width := r.width, height := r.height, page := pageNum }
    else
      { appliedRot := appliedRot, cmykConverted := cmykConverted,
        x := r.x0, y := r.y0, width := r.width, height := r.height, page := pageNum }
  | none =>
      { appliedRot := appliedRot, cmykConverted := cmykConverted,
        x := 0, y := 0, width := img.pixWidth, height := img.pixHeight, page := pageNum }

/-- `PDFToHTMLConverter.extract_images` over the whole document. -/
def extract_images (doc : List PageHandle) : List PDFImage :=
  (doc.enum.map fun pp => pp.2.imageRefs.map (processImage pp.1 pp.2)).flatten

/-- The rotation branch of `PDFImageExtractor.extract_images` in
src/sensei/pic_extract.py: the same angle mapping, except that a page with
rotation 0 also has its image decoded (and later re-encoded) without a
rotate call, so the applied angle is plain 0 rather than absent. -/
def pic_extract_applied_rotation (rotation : Int) : Int :=
  if rotation ≠ 0 then rotatePILAngle rotation else 0

/-- One entry of the `content_parts` list built by `generate_html`:
the page container opening div, the page header, one text div per emitted
text block, and the container closing div.  The loop body emits no other
kind of element (in particular no image element). -/
inductive HtmlPart where
  | pageOpen : Nat → HtmlPart
  | pageHeader : Nat → HtmlPart
  | textDiv : String → HtmlPart
  | pageClose : HtmlPart
deriving DecidableEq, Repr

/-- Python's `str.strip()` (with Lean's whitespace set): drop leading and
trailing whitespace. -/
def pyStrip (s : String) : String :=
  String.mk (((s.data.dropWhile Char.isWhitespace).reverse.dropWhile Char.isWhitespace).reverse)

/-- `sorted(pages.keys())` in `generate_html`. -/
def htmlPageKeys (text_blocks : List PDFTextBlock) : List Nat :=
  List.insertionSort (· ≤ ·) (pageKeys text_blocks)

/-- The body of the per-page loop of `generate_html`: container open (with
1-based id), header, one text div per block whose text is non-blank after
trimming, container close. -/
def pageParts (text_blocks : List PDFTextBlock) (p : Nat) : List HtmlPart :=
  HtmlPart.pageOpen p :: HtmlPart.pageHeader p ::
    ((pageGroup text_blocks p).filterMap fun b =>
      if pyStrip b.text ≠ "" then some (HtmlPart.textDiv b.text) else none)
    ++ [HtmlPart.pageClose]

/-- The `content_parts` list of `generate_html(text_blocks, images)`.  The
`images` argument is accepted but never read — the source's docstring says
"images are ignored" — so only the text blocks contribute parts. -/
def generate_html_parts (text_blocks : List PDFTextBlock) (images : List PDFImage) :
    List HtmlPart :=
  ((htmlPageKeys text_blocks).map fun p => pageParts text_blocks p).flatten

/-- Serialization of one content part, exactly as formatted by
`generate_html`. -/
def renderPart : HtmlPart → String
  | HtmlPart.pageOpen n => "<div class=\"page\" id=\"page-" ++ toString (n + 1) ++ "\">"
  | HtmlPart.pageHeader n => "<h2>Page " ++ toString (n + 1) ++ "</h2>"
  | HtmlPart.textDiv t => "<div class=\"text-block\">" ++ t ++ "</div>"
  | HtmlPart.pageClose => "</div>"

/-- The fixed HTML shell of `generate_html` before the `{content}`
placeholder (CSS braces written as escapes). -/
def htmlTemplateHead : String :=
  "<!DOCTYPE html>\n<html lang=\"en\">\n<head>\n    <meta charset=\"UTF-8\">\n    <meta name=\"viewport\" content=\"width=device-width, initial-scale=1.0\">\n    <title>Converted PDF</title>\n    <style>\n        body \x7b\n            font-family: Arial, sans-serif;\n            margin: 20px;\n            line-height: 1.6;\n            background-color: white;\n            color: black;\n        \x7d\n        .page \x7b\n            margin-bottom: 50px;\n            page-break-after: always;\n            background-color: white;\n            padding: 20px;\n            border: 1px solid #ddd;\n            border-radius: 5px;\n        \x7d\n        .text-block \x7b\n            margin-bottom: 10px;\n            background-color: white;\n        \x7d\n        .image \x7b\n            display: block;\n            margin: 10px 0;\n            background-color: white;\n        \x7d\n        h1 \x7b\n            color: #333;\n            background-color: white;\n        \x7d\n        h2 \x7b\n            color: #333;\n            background-color: white;\n        \x7d\n    </style>\n</head>\n<body>\n    <h1>Converted PDF Content</h1>\n    "

/-- The fixed HTML shell after the `{content}` placeholder. -/
def htmlTemplateTail : String := "\n</body>\n</html>"

/-- `generate_html(text_blocks, images)`: the template with the
newline-joined content parts substituted for the placeholder. -/
def generate_html (text_blocks : List PDFTextBlock) (images : List PDFImage) : String :=
  htmlTemplateHead
    ++ String.intercalate "\n" ((generate_html_parts text_blocks images).map renderPart)
    ++ htmlTemplateTail

/-- The page index of a content part when it is a page container opening,
`none` otherwise. -/
def pageOfPart : HtmlPart → Option Nat
  | HtmlPart.pageOpen n => some n
  | _ => none

/-- The page indices of the page container elements of a content-part
list. -/
def containerPages (parts : List HtmlPart) : List Nat :=
  parts.filterMap pageOfPart

/-- The error raised by both constructors when the input path does not
exist. -/
inductive ConvError where
  | fileNotFound : String → ConvError
deriving DecidableEq, Repr

/-- `PDFToHTMLConverter` instance state after `__init__`. -/
structure PDFToHTMLConverter where
  input_pdf_path : String
  output_html_path : String
  text_blocks : List PDFTextBlock
  images : List PDFImage
deriving DecidableEq, Repr

/-- `PDFToHTMLConverter.__init__`, with the filesystem modelled as the list
`fs` of existing paths.  The Python body assigns the fields and then raises
`FileNotFoundError` if the input path does not exist; a raise discards the
object, so construction is `ok` exactly when the path exists. -/
def PDFToHTMLConverter.init (fs : List String) (inputPdfPath outputHtmlPath : String) :
    Except ConvError PDFToHTMLConverter :=
  if inputPdfPath ∈ fs then
    Except.ok { input_pdf_path := inputPdfPath, output_html_path := outputHtmlPath,
                text_blocks := [], images := [] }
  else
    Except.error (ConvError.fileNotFound inputPdfPath)

/-- `PDFImageExtractor` instance state after `__init__` (the source field
`output_prefix` is named `outputPref` here). -/
structure PDFImageExtractor where
  input_pdf_path : String
  outputPref : String
deriving DecidableEq, Repr

/-- `PDFImageExtractor.__init__` from src/sensei/pic_extract.py. -/
def PDFImageExtractor.init (fs : List String) (inputPdfPath outPref : String) :
    Except ConvError PDFImageExtractor :=
  if inputPdfPath ∈ fs then
    Except.ok { input_pdf_path := inputPdfPath, outputPref := outPref }
  else
    Except.error (ConvError.fileNotFound inputPdfPath)

/-- The `try/except` of `main` in src/sensei/pdf_to_html.py: construction
failure (or any later failure of `convert`, abstracted as the continuation
`convertResult`) prints the error and returns exit code 1; success returns
0. -/
def pdf_to_html_main (fs : List String) (inputPdf outputHtml : String)
    (convertResult : PDFToHTMLConverter → Option Unit) : Nat :=
  match PDFToHTMLConverter.init fs inputPdf outputHtml with
  | Except.error _ => 1
  | Except.ok conv =>
    match convertResult conv with
    | some _ => 0
    | none => 1

/-- The `try/except` of `main` in src/sensei/pic_extract.py, with
`extract_images` abstracted as the continuation `extractResult`. -/
def pic_extract_main (fs : List String) (inputPdf outPref : String)
    (extractResult : PDFImageExtractor → Option (List String)) : Nat :=
  match PDFImageExtractor.init fs inputPdf outPref with
  | Except.error _ => 1
  | Except.ok extractor =>
    match extractResult extractor with
    | some _ => 0
    | none => 1

/-! ### Min/max envelope lemmas -/

theorem foldl_min_le_self (as : List ℚ) (a : ℚ) : as.foldl min a ≤ a := by
  induction as generalizing a with
  | nil => exact le_refl a
  | cons b bs ih => exact le_trans (ih (min a b)) (min_le_left _ _)

theorem le_foldl_max_self (as : List ℚ) (a : ℚ) : a ≤ as.foldl max a := by
  induction as generalizing a with
  | nil => exact le_refl a
  | cons b bs ih => exact le_trans (le_max_left _ _) (ih (max a b))

theorem foldl_min_le {as : List ℚ} {a q : ℚ} (h : q ∈ a :: as) : as.foldl min a ≤ q := by
  induction as generalizing a with
  | nil =>
    rcases List.mem_singleton.mp h with rfl
    exact le_refl q
  | cons b bs ih =>
    rcases List.mem_cons.mp h with rfl | h2
    · exact le_trans (foldl_min_le_self bs (min q b)) (min_le_left _ _)
    · rcases List.mem_cons.mp h2 with rfl | h3
      · exact le_trans (foldl_min_le_self bs (min a q)) (min_le_right _ _)
      · exact ih (List.mem_cons_of_mem _ h3)

theorem foldl_min_mem (as : List ℚ) (a : ℚ) : as.foldl min a ∈ a :: as := by
  induction as generalizing a with
  | nil => exact List.mem_singleton.mpr rfl
  | cons b bs ih =>
    have h := ih (min a b)
    rcases List.mem_cons.mp h with h1 | h2
    · rcases min_choice a b with hm | hm
      · exact List.mem_cons.mpr (Or.inl (h1.trans hm))
      · exact List.mem_cons.mpr (Or.inr (List.mem_cons.mpr (Or.inl (h1.trans hm))))
    · exact List.mem_cons.mpr (Or.inr (List.mem_cons.mpr (Or.inr h2)))

theorem le_foldl_max {as : List ℚ} {a q : ℚ} (h : q ∈ a :: as) : q ≤ as.foldl max a := by
  induction as generalizing a with
  | nil =>
    rcases List.mem_singleton.mp h with rfl
    exact le_refl q
  | cons b bs ih =>
    rcases List.mem_cons.mp h with rfl | h2
    · exact le_trans (le_max_left _ _) (le_foldl_max_self bs (max q b))
    · rcases List.mem_cons.mp h2 with rfl | h3
      · exact le_trans (le_max_right _ _) (le_foldl_max_self bs (max a q))
      · exact ih (List.mem_cons_of_mem _ h3)

theorem foldl_max_mem (as : List ℚ) (a : ℚ) : as.foldl max a ∈ a :: as := by
  induction as generalizing a with
  | nil => exact List.mem_singleton.mpr rfl
  | cons b bs ih =>
    have h := ih (max a b)
    rcases List.mem_cons.mp h with h1 | h2
    · rcases max_choice a b with hm | hm
      · exact List.mem_cons.mpr (Or.inl (h1.trans hm))
      · exact List.mem_cons.mpr (Or.inr (List.mem_cons.mpr (Or.inl (h1.trans hm))))
    · exact List.mem_cons.mpr (Or.inr (List.mem_cons.mpr (Or.inr h2)))

theorem listMin_le {l : List ℚ} {q : ℚ} (hq : q ∈ l) : listMin l ≤ q := by
  cases l with
  | nil => cases hq
  | cons a as => exact foldl_min_le hq

theorem listMin_mem {l : List ℚ} (h : l ≠ []) : listMin l ∈ l := by
  cases l with
  | nil => exact absurd rfl h
  | cons a as => exact foldl_min_mem as a

theorem le_listMax {l : List ℚ} {q : ℚ} (hq : q ∈ l) : q ≤ listMax l := by
  cases l with
  | nil => cases hq
  | cons a as => exact le_foldl_max hq

theorem listMax_mem {l : List ℚ} (h : l ≠ []) : listMax l ∈ l := by
  cases l with
  | nil => exact absurd rfl h
  | cons a as => exact foldl_max_mem as a

/-! ### Line-grouping lemmas (C4) -/

theorem groupLineLoop_single_line (pageNum : Nat) (rest : List CharRec) :
    ∀ (line : List CharRec) (refy : ℚ),
      (∀ c ∈ rest, pyAbs (c.y0 - refy) ≤ 2) →
      groupLineLoop pageNum rest (some (line, refy)) =
        [create_text_block_from_chars (line ++ rest) pageNum] := by
  induction rest with
  | nil =>
    intro line refy _
    simp [groupLineLoop]
  | cons c cs ih =>
    intro line refy htol
    have hc : pyAbs (c.y0 - refy) ≤ 2 := htol c (List.mem_cons_self _ _)
    have hcs : ∀ d ∈ cs, pyAbs (d.y0 - refy) ≤ 2 :=
      fun d hd => htol d (List.mem_cons_of_mem _ hd)
    simp only [groupLineLoop, if_pos hc]
    rw [ih (line ++ [c]) refy hcs]
    simp

theorem create_block_text (chars : List CharRec) (p : Nat) :
    (create_text_block_from_chars chars p).text = String.join (chars.map CharRec.text) := rfl

theorem create_block_page (chars : List CharRec) (p : Nat) :
    (create_text_block_from_chars chars p).page = p := rfl

theorem create_block_x (chars : List CharRec) (p : Nat) :
    (create_text_block_from_chars chars p).x = listMin (xCoordsOf chars) := rfl

theorem create_block_y (chars : List CharRec) (p : Nat) :
    (create_text_block_from_chars chars p).y = listMin (yCoordsOf chars) := rfl

theorem create_block_xw (chars : List CharRec) (p : Nat) :
    (create_text_block_from_chars chars p).x + (create_text_block_from_chars chars p).width
      = listMax (xCoordsOf chars) := by
  show listMin (xCoordsOf chars) + (listMax (xCoordsOf chars) - listMin (xCoordsOf chars)) = _
  ring

theorem create_block_yh (chars : List CharRec) (p : Nat) :
    (create_text_block_from_chars chars p).y + (create_text_block_from_chars chars p).height
      = listMax (yCoordsOf chars) := by
  show listMin (yCoordsOf chars) + (listMax (yCoordsOf chars) - listMin (yCoordsOf chars)) = _
  ring

theorem xCoordsOf_ne_nil (c0 : CharRec) (cs : List CharRec) : xCoordsOf (c0 :: cs) ≠ [] := by
  simp [xCoordsOf]

theorem yCoordsOf_ne_nil (c0 : CharRec) (cs : List CharRec) : yCoordsOf (c0 :: cs) ≠ [] := by
  simp [yCoordsOf]

/-- C4: for every non-empty glyph sequence of one page in which every
glyph's top coordinate (`y0`) is within the line tolerance of 2 units of
the first glyph's top coordinate, the Glyph Line Grouper produces exactly
one text fragment whose text is the concatenation of the glyphs' text in
input order and whose bounding box is the min/max envelope of all member
glyphs' coordinates (its corners attain, and bound, every glyph
coordinate). -/
theorem single_line_chars_group_to_one_block (pageNum : Nat) (c0 : CharRec) (cs : List CharRec)
    (htol : ∀ c ∈ c0 :: cs, pyAbs (c.y0 - c0.y0) ≤ 2) :
    ∃ b : PDFTextBlock,
      groupChars pageNum (c0 :: cs) = [b] ∧
      b.text = String.join ((c0 :: cs).map CharRec.text) ∧
      b.page = pageNum ∧
      (b.x ∈ xCoordsOf (c0 :: cs) ∧ ∀ q ∈ xCoordsOf (c0 :: cs), b.x ≤ q) ∧
      (b.x + b.width ∈ xCoordsOf (c0 :: cs) ∧ ∀ q ∈ xCoordsOf (c0 :: cs), q ≤ b.x + b.width) ∧
      (b.y ∈ yCoordsOf (c0 :: cs) ∧ ∀ q ∈ yCoordsOf (c0 :: cs), b.y ≤ q) ∧
      (b.y + b.height ∈ yCoordsOf (c0 :: cs) ∧ ∀ q ∈ yCoordsOf (c0 :: cs), q ≤ b.y + b.height) := by
  refine ⟨create_text_block_from_chars (c0 :: cs) pageNum, ?_, ?_, ?_, ?_, ?_, ?_, ?_⟩
  · have h1 : groupChars pageNum (c0 :: cs)
        = groupLineLoop pageNum cs (some ([c0], c0.y0)) := rfl
    rw [h1, groupLineLoop_single_line pageNum cs [c0] c0.y0
      (fun c hc => htol c (List.mem_cons_of_mem _ hc))]
    simp
  · exact create_block_text _ _
  · exact create_block_page _ _
  · rw [create_block_x]
    exact ⟨listMin_mem (xCoordsOf_ne_nil c0 cs), fun q hq => listMin_le hq⟩
  · rw [create_block_xw]
    exact ⟨listMax_mem (xCoordsOf_ne_nil c0 cs), fun q hq => le_listMax hq⟩
  · rw [create_block_y]
    exact ⟨listMin_mem (yCoordsOf_ne_nil c0 cs), fun q hq => listMin_le hq⟩
  · rw [create_block_yh]
    exact ⟨listMax_mem (yCoordsOf_ne_nil c0 cs), fun q hq => le_listMax hq⟩

/-- The first character of the repository's own `Hello` test line
(`test_create_text_block_from_chars`). -/
def c4char0 : CharRec := ⟨"H", 10, 15, 20, 35⟩

/-- The remaining characters of the `Hello` test line. -/
def c4chars : List CharRec :=
  [⟨"e", 15, 20, 20, 35⟩, ⟨"l", 20, 25, 20, 35⟩, ⟨"l", 25, 30, 20, 35⟩, ⟨"o", 30, 35, 20, 35⟩]

/-- Witness for C4 at the repository's `Hello` test line. -/
theorem single_line_chars_group_to_one_block_witness :
    ∃ b : PDFTextBlock,
      groupChars 0 (c4char0 :: c4chars) = [b] ∧
      b.text = String.join ((c4char0 :: c4chars).map CharRec.text) ∧
      b.page = 0 ∧
      (b.x ∈ xCoordsOf (c4char0 :: c4chars) ∧ ∀ q ∈ xCoordsOf (c4char0 :: c4chars), b.x ≤ q) ∧
      (b.x + b.width ∈ xCoordsOf (c4char0 :: c4chars) ∧
        ∀ q ∈ xCoordsOf (c4char0 :: c4chars), q ≤ b.x + b.width) ∧
      (b.y ∈ yCoordsOf (c4char0 :: c4chars) ∧ ∀ q ∈ yCoordsOf (c4char0 :: c4chars), b.y ≤ q) ∧
      (b.y + b.height ∈ yCoordsOf (c4char0 :: c4chars) ∧
        ∀ q ∈ yCoordsOf (c4char0 :: c4chars), q ≤ b.y + b.height) :=
  single_line_chars_group_to_one_block 0 c4char0 c4chars (by decide)

/-! ### Permutation lemmas for the Column Reorderer (C2) -/

theorem sortBlocks_perm (l : List PDFTextBlock) : (sortBlocks l).Perm l :=
  List.perm_insertionSort sortKeyLe l

theorem sortByY_perm (l : List PDFTextBlock) : (sortByY l).Perm l :=
  List.perm_insertionSort yOrder l

theorem clusterLoop_flatten_perm (tol : ℚ) :
    ∀ (rest cur : List PDFTextBlock), ((clusterLoop tol rest cur).flatten).Perm (cur ++ rest) := by
  intro rest
  induction rest with
  | nil =>
    intro cur
    cases cur with
    | nil => simp [clusterLoop]
    | cons c cs =>
      simp only [clusterLoop, List.flatten, List.append_nil]
      exact (sortByY_perm (c :: cs)).trans (by simp)
  | cons b bs ih =>
    intro cur
    cases cur with
    | nil =>
      show ((clusterLoop tol bs [b]).flatten).Perm ([] ++ b :: bs)
      exact (ih [b]).trans (by simp)
    | cons c cs =>
      show ((clusterLoop tol (b :: bs) (c :: cs)).flatten).Perm (c :: cs ++ b :: bs)
      by_cases hcond : pyAbs (b.x - c.x) ≤ tol
      · rw [show clusterLoop tol (b :: bs) (c :: cs) = clusterLoop tol bs (c :: cs ++ [b]) from
          by simp [clusterLoop, if_pos hcond]]
        have h2 := ih (c :: cs ++ [b])
        have h3 : (c :: cs ++ [b]) ++ bs = c :: cs ++ b :: bs := by simp
        rw [h3] at h2
        exact h2
      · rw [show clusterLoop tol (b :: bs) (c :: cs)
            = sortByY (c :: cs) :: clusterLoop tol bs [b] from by simp [clusterLoop, if_neg hcond]]
        show ((sortByY (c :: cs) ++ (clusterLoop tol bs [b]).flatten)).Perm (c :: cs ++ b :: bs)
        exact List.Perm.append (sortByY_perm (c :: cs)) (ih [b])

theorem convertPage_perm (blocks : List PDFTextBlock) : (convertPage blocks).Perm blocks := by
  unfold convertPage
  have h1 : (((clusterColumns 50 (sortBlocks blocks)).reverse).flatten).Perm
      ((clusterColumns 50 (sortBlocks blocks)).flatten) :=
    List.Perm.flatten (List.reverse_perm _)
  have h2 := clusterLoop_flatten_perm 50 (sortBlocks blocks) []
  simp only [List.nil_append] at h2
  exact (h1.trans h2).trans (sortBlocks_perm blocks)

theorem mem_insertKey {ks : List Nat} {j k : Nat} : k ∈ insertKey ks j ↔ k ∈ ks ∨ k = j := by
  unfold insertKey
  by_cases hj : j ∈ ks
  · simp only [if_pos hj]
    constructor
    · exact Or.inl
    · rintro (h | rfl)
      · exact h
      · exact hj
  · simp [if_neg hj]

theorem nodup_insertKey {ks : List Nat} (h : ks.Nodup) (j : Nat) : (insertKey ks j).Nodup := by
  unfold insertKey
  by_cases hj : j ∈ ks
  · simpa [if_pos hj] using h
  · simp only [if_neg hj]
    exact List.Nodup.append h (List.nodup_singleton j)
      (fun a ha hb => hj (by rwa [List.mem_singleton.mp hb] at ha))

theorem mem_foldl_insertKey (bs : List PDFTextBlock) :
    ∀ (acc : List Nat) (k : Nat),
      k ∈ bs.foldl (fun ks b => insertKey ks b.page) acc ↔ k ∈ acc ∨ ∃ b ∈ bs, b.page = k := by
  induction bs with
  | nil => intro acc k; simp
  | cons b bs2 ih =>
    intro acc k
    show k ∈ bs2.foldl (fun ks b => insertKey ks b.page) (insertKey acc b.page) ↔ _
    rw [ih (insertKey acc b.page) k]
    constructor
    · rintro (h1 | h2)
      · rcases mem_insertKey.mp h1 with h3 | rfl
        · exact Or.inl h3
        · exact Or.inr ⟨b, List.mem_cons_self _ _, rfl⟩
      · rcases h2 with ⟨b2, hb2, rfl⟩
        exact Or.inr ⟨b2, List.mem_cons_of_mem _ hb2, rfl⟩
    · rintro (h1 | ⟨b2, hb2, rfl⟩)
      · exact Or.inl (mem_insertKey.mpr (Or.inl h1))
      · rcases List.mem_cons.mp hb2 with rfl | h3
        · exact Or.inl (mem_insertKey.mpr (Or.inr rfl))
        · exact Or.inr ⟨b2, h3, rfl⟩

theorem nodup_foldl_insertKey (bs : List PDFTextBlock) :
    ∀ acc : List Nat, acc.Nodup → (bs.foldl (fun ks b => insertKey ks b.page) acc).Nodup := by
  induction bs with
  | nil => intro acc h; exact h
  | cons b bs2 ih => intro acc h; exact ih (insertKey acc b.page) (nodup_insertKey h b.page)

theorem mem_pageKeys {blocks : List PDFTextBlock} {k : Nat} :
    k ∈ pageKeys blocks ↔ ∃ b ∈ blocks, b.page = k := by
  rw [pageKeys, mem_foldl_insertKey blocks [] k]
  simp

theorem pageKeys_nodup (blocks : List PDFTextBlock) : (pageKeys blocks).Nodup :=
  nodup_foldl_insertKey blocks [] List.nodup_nil

theorem join_map_perm (ks : List Nat) (f g : Nat → List PDFTextBlock)
    (h : ∀ k ∈ ks, (f k).Perm (g k)) : ((ks.map f).flatten).Perm ((ks.map g).flatten) := by
  induction ks with
  | nil => exact List.Perm.refl _
  | cons k ks2 ih =>
    simp only [List.map_cons, List.flatten_cons]
    exact List.Perm.append (h k (List.mem_cons_self _ _))
      (ih fun k2 hk2 => h k2 (List.mem_cons_of_mem _ hk2))

theorem flatten_pageGroups_perm :
    ∀ (ks : List Nat) (F : List PDFTextBlock), ks.Nodup → (∀ b ∈ F, b.page ∈ ks) →
      ((ks.map fun k => F.filter (fun b => b.page == k)).flatten).Perm F := by
  intro ks
  induction ks with
  | nil =>
    intro F _ hcov
    cases F with
    | nil => exact List.Perm.refl _
    | cons b bs => exact absurd (hcov b (List.mem_cons_self _ _)) (List.not_mem_nil _)
  | cons k ks2 ih =>
    intro F hnodup hcov
    have hk_not : k ∉ ks2 := (List.nodup_cons.mp hnodup).1
    have hnodup2 : ks2.Nodup := (List.nodup_cons.mp hnodup).2
    have hmap : ∀ k2 ∈ ks2,
        F.filter (fun b => b.page == k2)
          = (F.filter (fun b => !(b.page == k))).filter (fun b => b.page == k2) := by
      intro k2 hk2
      have hne : k2 ≠ k := fun he => hk_not (he ▸ hk2)
      rw [List.filter_filter]
      apply List.filter_congr
      intro b _
      by_cases hb : b.page = k2
      · simp [hb, hne]
      · simp [hb]
    simp only [List.map_cons, List.flatten_cons]
    have hrw : ks2.map (fun k2 => F.filter (fun b => b.page == k2))
        = ks2.map (fun k2 => (F.filter (fun b => !(b.page == k))).filter (fun b => b.page == k2)) :=
      List.map_congr_left hmap
    rw [hrw]
    have hcov2 : ∀ b ∈ F.filter (fun b => !(b.page == k)), b.page ∈ ks2 := by
      intro b hb
      have hbF := List.mem_filter.mp hb
      have hpage := hcov b hbF.1
      rcases List.mem_cons.mp hpage with he | h2
      · exfalso
        have := hbF.2
        rw [he] at this
        simp at this
      · exact h2
    have hih := ih (F.filter (fun b => !(b.page == k))) hnodup2 hcov2
    exact (List.Perm.append_left _ hih).trans (List.filter_append_perm _ F)

/-- C2: for every fragment list `F`, `convert_layout` returns a list of the
same length that is a permutation of `F` — no fragment is dropped and none
is duplicated — both for the whole input and for each page's group. -/
theorem convert_layout_preserves_fragments (F : List PDFTextBlock) :
    (convert_layout F).length = F.length ∧
    (convert_layout F).Perm F ∧
    ∀ p : Nat, ((convert_layout F).filter (fun b => b.page == p)).Perm
        (F.filter (fun b => b.page == p)) := by
  have hperm : (convert_layout F).Perm F := by
    unfold convert_layout
    have h1 : (((pageKeys F).map fun p => convertPage (pageGroup F p)).flatten).Perm
        (((pageKeys F).map fun p => pageGroup F p).flatten) :=
      join_map_perm _ _ _ (fun k _ => convertPage_perm _)
    refine h1.trans ?_
    exact flatten_pageGroups_perm (pageKeys F) F (pageKeys_nodup F)
      (fun b hb => mem_pageKeys.mpr ⟨b, hb, rfl⟩)
  exact ⟨hperm.length_eq, hperm, fun p => hperm.filter _⟩

/-! ### Column-structure lemmas (C1, C3) -/

theorem sortKeyLe_x_le {a b : PDFTextBlock} (h : sortKeyLe a b) : b.x ≤ a.x := by
  rcases h with h1 | ⟨h2, _⟩
  · exact le_of_lt h1
  · exact le_of_eq h2.symm

/-- A `(-x, y)`-sorted list whose members sit at x = 300, 200 or 100 splits
into the three constant bands in that order. -/
theorem three_band_decomp :
    ∀ s : List PDFTextBlock, List.Sorted sortKeyLe s →
      (∀ b ∈ s, b.x = 300 ∨ b.x = 200 ∨ b.x = 100) →
      ∃ A B C : List PDFTextBlock, s = A ++ B ++ C ∧
        (∀ b ∈ A, b.x = 300) ∧ (∀ b ∈ B, b.x = 200) ∧ (∀ b ∈ C, b.x = 100) := by
  intro s
  induction s with
  | nil => exact fun _ _ => ⟨[], [], [], by simp, by simp, by simp, by simp⟩
  | cons a s2 ih =>
    intro hsorted hx
    have hpair : ∀ b ∈ s2, sortKeyLe a b := (List.pairwise_cons.mp hsorted).1
    have hsorted2 : List.Sorted sortKeyLe s2 := (List.pairwise_cons.mp hsorted).2
    obtain ⟨A, B, C, hdec, hA, hB, hC⟩ :=
      ih hsorted2 (fun b hb => hx b (List.mem_cons_of_mem _ hb))
    have hmemA : ∀ b ∈ A, b ∈ s2 := fun b hb => hdec ▸ (by simp [hb])
    have hmemB : ∀ b ∈ B, b ∈ s2 := fun b hb => hdec ▸ (by simp [hb])
    rcases hx a (List.mem_cons_self _ _) with ha | ha | ha
    · exact ⟨a :: A, B, C, by simp [hdec], by
        intro b hb
        rcases List.mem_cons.mp hb with rfl | hb2
        · exact ha
        · exact hA b hb2, hB, hC⟩
    · have hAnil : A = [] := by
        cases A with
        | nil => rfl
        | cons a2 A2 =>
          exfalso
          have h3 : a2.x ≤ a.x := sortKeyLe_x_le (hpair a2 (hmemA a2 (List.mem_cons_self _ _)))
          rw [ha, hA a2 (List.mem_cons_self _ _)] at h3
          norm_num at h3
      subst hAnil
      exact ⟨[], a :: B, C, by simp [hdec], by simp, by
        intro b hb
        rcases List.mem_cons.mp hb with rfl | hb2
        · exact ha
        · exact hB b hb2, hC⟩
    · have hAnil : A = [] := by
        cases A with
        | nil => rfl
        | cons a2 A2 =>
          exfalso
          have h3 : a2.x ≤ a.x := sortKeyLe_x_le (hpair a2 (hmemA a2 (List.mem_cons_self _ _)))
          rw [ha, hA a2 (List.mem_cons_self _ _)] at h3
          norm_num at h3
      subst hAnil
      have hBnil : B = [] := by
        cases B with
        | nil => rfl
        | cons b2 B2 =>
          exfalso
          have h3 : b2.x ≤ a.x := sortKeyLe_x_le (hpair b2 (hmemB b2 (List.mem_cons_self _ _)))
          rw [ha, hB b2 (List.mem_cons_self _ _)] at h3
          norm_num at h3
      subst hBnil
      exact ⟨[], [], a :: C, by simp [hdec], by simp, by simp, by
        intro b hb
        rcases List.mem_cons.mp hb with rfl | hb2
        · exact ha
        · exact hC b hb2⟩

/-- Blocks whose x equals the anchor's x are absorbed one by one into the
current column. -/
theorem clusterLoop_absorb (v : ℚ) :
    ∀ (A : List PDFTextBlock), (∀ a ∈ A, a.x = v) →
      ∀ (rest cs : List PDFTextBlock) (c : PDFTextBlock), c.x = v →
        clusterLoop 50 (A ++ rest) (c :: cs) = clusterLoop 50 rest (c :: (cs ++ A)) := by
  intro A
  induction A with
  | nil => intro _ rest cs c _; simp
  | cons a A2 ih =>
    intro hA rest cs c hc
    have hcond : pyAbs (a.x - c.x) ≤ 50 := by
      rw [hA a (List.mem_cons_self _ _), hc]
      norm_num [pyAbs]
    show (if pyAbs (a.x - c.x) ≤ 50 then clusterLoop 50 (A2 ++ rest) (c :: cs ++ [a])
          else sortByY (c :: cs) :: clusterLoop 50 (A2 ++ rest) [a]) = _
    rw [if_pos hcond]
    have ih2 := ih (fun b hb => hA b (List.mem_cons_of_mem _ hb)) rest (cs ++ [a]) c hc
    rw [show c :: cs ++ [a] = c :: (cs ++ [a]) from rfl, ih2]
    simp

theorem clusterLoop_nil_cons (tol : ℚ) (c : PDFTextBlock) (cs : List PDFTextBlock) :
    clusterLoop tol [] (c :: cs) = [sortByY (c :: cs)] := rfl

theorem clusterLoop_cons_nil (tol : ℚ) (b : PDFTextBlock) (bs : List PDFTextBlock) :
    clusterLoop tol (b :: bs) [] = clusterLoop tol bs [b] := rfl

theorem clusterLoop_cons_cons_far {tol : ℚ} (b : PDFTextBlock) (bs : List PDFTextBlock)
    (c : PDFTextBlock) (cs : List PDFTextBlock) (h : ¬ pyAbs (b.x - c.x) ≤ tol) :
    clusterLoop tol (b :: bs) (c :: cs) = sortByY (c :: cs) :: clusterLoop tol bs [b] := by
  show (if pyAbs (b.x - c.x) ≤ tol then clusterLoop tol bs (c :: cs ++ [b])
        else sortByY (c :: cs) :: clusterLoop tol bs [b]) = _
  rw [if_neg h]

theorem mapx_sortByY {R : List PDFTextBlock} {v : ℚ} (h : ∀ b ∈ R, b.x = v) :
    (sortByY R).map PDFTextBlock.x = List.replicate R.length v := by
  apply List.eq_replicate_iff.mpr
  constructor
  · rw [List.length_map]
    exact (sortByY_perm R).length_eq
  · intro q hq
    rcases List.mem_map.mp hq with ⟨b, hb, rfl⟩
    exact h b ((sortByY_perm R).mem_iff.mp hb)

/-- Clustering a (-x)-sorted page consisting of the x = 300, 200, 100 bands
produces the three bands as columns (each y-sorted), whose reversed
flattening therefore reads x = 100 first, then 200, then 300. -/
theorem clusterThree (A B C : List PDFTextBlock)
    (hA : ∀ b ∈ A, b.x = 300) (hB : ∀ b ∈ B, b.x = 200) (hC : ∀ b ∈ C, b.x = 100) :
    (((clusterColumns 50 (A ++ B ++ C)).reverse).flatten).map PDFTextBlock.x
      = List.replicate C.length 100 ++ List.replicate B.length 200
        ++ List.replicate A.length 300 := by
  cases A with
  | nil =>
    cases B with
    | nil =>
      cases C with
      | nil => simp [clusterColumns, clusterLoop]
      | cons c C2 =>
        have h1 : clusterColumns 50 ([] ++ [] ++ (c :: C2)) = [sortByY (c :: C2)] := by
          show clusterLoop 50 (c :: C2) [] = _
          rw [clusterLoop_cons_nil]
          rw [show C2 = C2 ++ [] from by simp]
          rw [clusterLoop_absorb c.x C2 (fun b hb => by
            rw [hC b (List.mem_cons_of_mem _ hb), hC c (List.mem_cons_self _ _)]) [] [] c rfl]
          simp [clusterLoop_nil_cons]
        rw [h1]
        simp [mapx_sortByY hC]
    | cons b B2 =>
      have habs : clusterColumns 50 ([] ++ (b :: B2) ++ C) = clusterLoop 50 C (b :: B2) := by
        show clusterLoop 50 (b :: (B2 ++ C)) [] = _
        rw [clusterLoop_cons_nil]
        rw [clusterLoop_absorb b.x B2 (fun a ha => by
          rw [hB a (List.mem_cons_of_mem _ ha), hB b (List.mem_cons_self _ _)]) C [] b rfl]
        simp
      cases C with
      | nil =>
        rw [habs, clusterLoop_nil_cons]
        simp [mapx_sortByY hB]
      | cons c C2 =>
        have hfar : ¬ pyAbs (c.x - b.x) ≤ (50 : ℚ) := by
          rw [hC c (List.mem_cons_self _ _), hB b (List.mem_cons_self _ _)]
          norm_num [pyAbs]
        rw [habs, clusterLoop_cons_cons_far c C2 b B2 hfar]
        have h2 : clusterLoop 50 C2 [c] = [sortByY (c :: C2)] := by
          rw [show C2 = C2 ++ [] from by simp]
          rw [clusterLoop_absorb c.x C2 (fun a ha => by
            rw [hC a (List.mem_cons_of_mem _ ha), hC c (List.mem_cons_self _ _)]) [] [] c rfl]
          simp [clusterLoop_nil_cons]
        rw [h2]
        simp [mapx_sortByY hB, mapx_sortByY hC]
  | cons a A2 =>
    have habs : clusterColumns 50 ((a :: A2) ++ B ++ C) = clusterLoop 50 (B ++ C) (a :: A2) := by
      show clusterLoop 50 (a :: (A2 ++ B ++ C)) [] = _
      rw [clusterLoop_cons_nil]
      rw [show A2 ++ B ++ C = A2 ++ (B ++ C) from by simp]
      rw [clusterLoop_absorb a.x A2 (fun b hb => by
        rw [hA b (List.mem_cons_of_mem _ hb), hA a (List.mem_cons_self _ _)]) (B ++ C) [] a rfl]
      simp
    cases B with
    | nil =>
      cases C with
      | nil =>
        rw [show ([] : List PDFTextBlock) ++ ([] : List PDFTextBlock) = [] from rfl] at habs
        rw [habs, clusterLoop_nil_cons]
        simp [mapx_sortByY hA]
      | cons c C2 =>
        rw [List.nil_append] at habs
        have hfar : ¬ pyAbs (c.x - a.x) ≤ (50 : ℚ) := by
          rw [hC c (List.mem_cons_self _ _), hA a (List.mem_cons_self _ _)]
          norm_num [pyAbs]
        rw [habs, clusterLoop_cons_cons_far c C2 a A2 hfar]
        have h2 : clusterLoop 50 C2 [c] = [sortByY (c :: C2)] := by
          rw [show C2 = C2 ++ [] from by simp]
          rw [clusterLoop_absorb c.x C2 (fun b hb => by
            rw [hC b (List.mem_cons_of_mem _ hb), hC c (List.mem_cons_self _ _)]) [] [] c rfl]
          simp [clusterLoop_nil_cons]
        rw [h2]
        simp [mapx_sortByY hA, mapx_sortByY hC]
    | cons b B2 =>
      have hfarBA : ¬ pyAbs (b.x - a.x) ≤ (50 : ℚ) := by
        rw [hB b (List.mem_cons_self _ _), hA a (List.mem_cons_self _ _)]
        norm_num [pyAbs]
      have hstep : clusterLoop 50 ((b :: B2) ++ C) (a :: A2)
          = sortByY (a :: A2) :: clusterLoop 50 C (b :: B2) := by
        show clusterLoop 50 (b :: (B2 ++ C)) (a :: A2) = _
        rw [clusterLoop_cons_cons_far b (B2 ++ C) a A2 hfarBA]
        rw [clusterLoop_absorb b.x B2 (fun d hd => by
          rw [hB d (List.mem_cons_of_mem _ hd), hB b (List.mem_cons_self _ _)]) C [] b rfl]
        simp
      cases C with
      | nil =>
        rw [habs, hstep, clusterLoop_nil_cons]
        simp [mapx_sortByY hA, mapx_sortByY hB]
      | cons c C2 =>
        have hfarCB : ¬ pyAbs (c.x - b.x) ≤ (50 : ℚ) := by
          rw [hC c (List.mem_cons_self _ _), hB b (List.mem_cons_self _ _)]
          norm_num [pyAbs]
        have h2 : clusterLoop 50 C2 [c] = [sortByY (c :: C2)] := by
          rw [show C2 = C2 ++ [] from by simp]
          rw [clusterLoop_absorb c.x C2 (fun d hd => by
            rw [hC d (List.mem_cons_of_mem _ hd), hC c (List.mem_cons_self _ _)]) [] [] c rfl]
          simp [clusterLoop_nil_cons]
        rw [habs, hstep, clusterLoop_cons_cons_far c C2 b B2 hfarCB, h2]
        simp [mapx_sortByY hA, mapx_sortByY hB, mapx_sortByY hC]

theorem foldl_insertKey_all_mem {p : Nat} :
    ∀ (bs : List PDFTextBlock) (acc : List Nat), (∀ b ∈ bs, b.page = p) → p ∈ acc →
      bs.foldl (fun ks b => insertKey ks b.page) acc = acc := by
  intro bs
  induction bs with
  | nil => intro acc _ _; rfl
  | cons b bs2 ih =>
    intro acc hall hacc
    show bs2.foldl (fun ks b => insertKey ks b.page) (insertKey acc b.page) = acc
    have hkey : insertKey acc b.page = acc := by
      rw [hall b (List.mem_cons_self _ _)]
      exact if_pos hacc
    rw [hkey]
    exact ih acc (fun d hd => hall d (List.mem_cons_of_mem _ hd)) hacc

theorem pageKeys_single_page {blocks : List PDFTextBlock} {p : Nat} (hne : blocks ≠ [])
    (h : ∀ b ∈ blocks, b.page = p) : pageKeys blocks = [p] := by
  cases blocks with
  | nil => exact absurd rfl hne
  | cons b bs =>
    show (b :: bs).foldl (fun ks d => insertKey ks d.page) [] = [p]
    rw [List.foldl_cons]
    have h1 : insertKey [] b.page = [p] := by
      rw [h b (List.mem_cons_self _ _)]
      rfl
    rw [h1]
    exact foldl_insertKey_all_mem bs [p] (fun d hd => h d (List.mem_cons_of_mem _ hd))
      (List.mem_singleton.mpr rfl)

theorem pageGroup_single_page {blocks : List PDFTextBlock} {p : Nat}
    (h : ∀ b ∈ blocks, b.page = p) : pageGroup blocks p = blocks :=
  List.filter_eq_self.mpr fun b hb => by simp [h b hb]

/-- On a single-page input, `convert_layout` is exactly its per-page body. -/
theorem convert_layout_single_page {blocks : List PDFTextBlock} {p : Nat}
    (h : ∀ b ∈ blocks, b.page = p) : convert_layout blocks = convertPage blocks := by
  cases hbe : blocks with
  | nil => rfl
  | cons b bs =>
    rw [← hbe]
    unfold convert_layout
    rw [pageKeys_single_page (hbe ▸ List.cons_ne_nil b bs) h, List.map_singleton,
      pageGroup_single_page h]
    simp

/-- C1 (amended): for every page whose fragments sit in the three
tolerance-separated columns at x = 300, x = 200 and x = 100,
`convert_layout` places the x = 100 column's members first, then the
x = 200 column's members, then the x = 300 column's members: reading order
proceeds from the document's leftmost physical column to its rightmost
(the column order is reversed with respect to the claim's statement). -/
theorem convert_layout_columns_left_to_right (blocks : List PDFTextBlock) (p : Nat)
    (hpage : ∀ b ∈ blocks, b.page = p)
    (hx : ∀ b ∈ blocks, b.x = 300 ∨ b.x = 200 ∨ b.x = 100) :
    (convert_layout blocks).map PDFTextBlock.x
      = List.replicate ((blocks.filter (fun b => b.x == 100)).length) 100
        ++ List.replicate ((blocks.filter (fun b => b.x == 200)).length) 200
        ++ List.replicate ((blocks.filter (fun b => b.x == 300)).length) 300 := by
  rw [convert_layout_single_page hpage]
  have hsp : (sortBlocks blocks).Perm blocks := sortBlocks_perm blocks
  have hsorted : List.Sorted sortKeyLe (sortBlocks blocks) :=
    List.sorted_insertionSort sortKeyLe blocks
  have hxs : ∀ b ∈ sortBlocks blocks, b.x = 300 ∨ b.x = 200 ∨ b.x = 100 :=
    fun b hb => hx b (hsp.mem_iff.mp hb)
  obtain ⟨A, B, C, hdec, hA, hB, hC⟩ := three_band_decomp (sortBlocks blocks) hsorted hxs
  have hcount : ∀ (v : ℚ), (blocks.filter (fun b => b.x == v)).length
      = ((A ++ B ++ C).filter (fun b => b.x == v)).length := by
    intro v
    rw [← hdec]
    exact ((hsp.filter (fun b => b.x == v)).length_eq).symm
  have hfA : ∀ {v : ℚ} (R : List PDFTextBlock), (∀ b ∈ R, b.x = v) →
      ∀ {w : ℚ}, v ≠ w → R.filter (fun b => b.x == w) = [] := by
    intro v R hR w hvw
    apply List.filter_eq_nil_iff.mpr
    intro b hb
    simp [hR b hb, hvw]
  have hfS : ∀ {v : ℚ} (R : List PDFTextBlock), (∀ b ∈ R, b.x = v) →
      R.filter (fun b => b.x == v) = R := by
    intro v R hR
    apply List.filter_eq_self.mpr
    intro b hb
    simp [hR b hb]
  have h100 : (blocks.filter (fun b => b.x == 100)).length = C.length := by
    rw [hcount 100, List.filter_append, List.filter_append,
      hfA A hA (by norm_num), hfA B hB (by norm_num), hfS C hC]
    simp
  have h200 : (blocks.filter (fun b => b.x == 200)).length = B.length := by
    rw [hcount 200, List.filter_append, List.filter_append,
      hfA A hA (by norm_num), hfA C hC (by norm_num), hfS B hB]
    simp
  have h300 : (blocks.filter (fun b => b.x == 300)).length = A.length := by
    rw [hcount 300, List.filter_append, List.filter_append,
      hfA B hB (by norm_num), hfA C hC (by norm_num), hfS A hA]
    simp
  rw [h100, h200, h300]
  unfold convertPage
  rw [hdec]
  exact clusterThree A B C hA hB hC

/-- The six-fragment, three-column page of the specification's end-to-end
scenario and of the repository's `test_convert_layout`. -/
def sampleColumns6 : List PDFTextBlock :=
  [⟨"r1", 300, 10, 50, 20, 0⟩, ⟨"r2", 300, 40, 50, 20, 0⟩,
   ⟨"m1", 200, 10, 50, 20, 0⟩, ⟨"m2", 200, 40, 50, 20, 0⟩,
   ⟨"l1", 100, 10, 50, 20, 0⟩, ⟨"l2", 100, 40, 50, 20, 0⟩]

/-- Witness for the amended C1 at the three-column sample page. -/
theorem convert_layout_columns_left_to_right_witness :
    (convert_layout sampleColumns6).map PDFTextBlock.x
      = List.replicate ((sampleColumns6.filter (fun b => b.x == 100)).length) 100
        ++ List.replicate ((sampleColumns6.filter (fun b => b.x == 200)).length) 200
        ++ List.replicate ((sampleColumns6.filter (fun b => b.x == 300)).length) 300 :=
  convert_layout_columns_left_to_right sampleColumns6 0 (by decide) (by decide)

/-- Counterexample to C1 as stated: on the three-column sample page the
reordered output does not read the x = 300 column first — its x sequence is
not `[300, 300, 200, 200, 100, 100]` (it is `[100, 100, 200, 200, 300,
300]`). -/
theorem convert_layout_rightmost_first_counterexample :
    (convert_layout sampleColumns6).map PDFTextBlock.x
      ≠ [300, 300, 200, 200, 100, 100] := by decide

theorem sortByY_pairwise (l : List PDFTextBlock) :
    List.Pairwise (fun a b : PDFTextBlock => a.y ≤ b.y) (sortByY l) :=
  List.sorted_insertionSort yOrder l

/-- Every column emitted by the clustering loop is the y-sort of some
member list. -/
theorem clusterLoop_col_is_sorted (tol : ℚ) :
    ∀ (rest cur col : List PDFTextBlock), col ∈ clusterLoop tol rest cur →
      ∃ src, col = sortByY src := by
  intro rest
  induction rest with
  | nil =>
    intro cur col hcol
    cases cur with
    | nil => cases hcol
    | cons c cs =>
      rw [clusterLoop_nil_cons] at hcol
      exact ⟨c :: cs, List.mem_singleton.mp hcol⟩
  | cons b bs ih =>
    intro cur col hcol
    cases cur with
    | nil =>
      rw [clusterLoop_cons_nil] at hcol
      exact ih [b] col hcol
    | cons c cs =>
      by_cases hcond : pyAbs (b.x - c.x) ≤ tol
      · rw [show clusterLoop tol (b :: bs) (c :: cs) = clusterLoop tol bs (c :: cs ++ [b]) from
          by simp [clusterLoop, if_pos hcond]] at hcol
        exact ih _ col hcol
      · rw [clusterLoop_cons_cons_far b bs c cs hcond] at hcol
        rcases List.mem_cons.mp hcol with rfl | h2
        · exact ⟨c :: cs, rfl⟩
        · exact ih [b] col h2

/-- C3: on a single page, `convert_layout` sorts the members of each
reconstructed column by y ascending (within any one column members appear
in non-decreasing y order), then reverses the overall column order before
concatenating, so that the column completed last (the leftmost band of the
descending-x sweep) comes first in the output sequence. -/
theorem convert_layout_within_column_order (blocks : List PDFTextBlock) (p : Nat)
    (hpage : ∀ b ∈ blocks, b.page = p) :
    convert_layout blocks = ((clusterColumns 50 (sortBlocks blocks)).reverse).flatten ∧
    (∀ col ∈ clusterColumns 50 (sortBlocks blocks),
      List.Pairwise (fun a b : PDFTextBlock => a.y ≤ b.y) col) ∧
    ∀ lastCol, (clusterColumns 50 (sortBlocks blocks)).getLast? = some lastCol →
      ∃ t, convert_layout blocks = lastCol ++ t := by
  have hmain : convert_layout blocks = ((clusterColumns 50 (sortBlocks blocks)).reverse).flatten :=
    convert_layout_single_page hpage
  refine ⟨hmain, ?_, ?_⟩
  · intro col hcol
    obtain ⟨src, rfl⟩ := clusterLoop_col_is_sorted 50 (sortBlocks blocks) [] col hcol
    exact sortByY_pairwise src
  · intro lastCol hlast
    rw [List.getLast?_eq_head?_reverse] at hlast
    rcases hrev : (clusterColumns 50 (sortBlocks blocks)).reverse with _ | ⟨h0, t0⟩
    · rw [hrev] at hlast
      cases hlast
    · rw [hrev] at hlast
      have he : h0 = lastCol := by
        simpa using hlast
      subst he
      exact ⟨t0.flatten, by rw [hmain, hrev, List.flatten_cons]⟩

/-- Witness for C3 at the three-column sample page. -/
theorem convert_layout_within_column_order_witness :
    convert_layout sampleColumns6
        = ((clusterColumns 50 (sortBlocks sampleColumns6)).reverse).flatten ∧
    (∀ col ∈ clusterColumns 50 (sortBlocks sampleColumns6),
      List.Pairwise (fun a b : PDFTextBlock => a.y ≤ b.y) col) ∧
    ∀ lastCol, (clusterColumns 50 (sortBlocks sampleColumns6)).getLast? = some lastCol →
      ∃ t, convert_layout sampleColumns6 = lastCol ++ t :=
  convert_layout_within_column_order sampleColumns6 0 (by decide)

/-! ### Image Normalizer theorems (C5, C6) -/

/-- C5: for every extracted image, the Image Normalizer reflects the
position rectangle on both axes when the page rotation is 180 degrees,
leaves it uncorrected for rotations 90 and 270 degrees, and falls back to
the origin with the raw pixel dimensions when no placement rectangle is
available. -/
theorem image_position_rotation_cases (pageNum : Nat) (page : PageHandle) (img : PageImageRef) :
    (∀ r : FitzRect, img.rect = some r → page.rotation = 180 →
      (processImage pageNum page img).x = page.rectWidth - r.x0 - r.width ∧
      (processImage pageNum page img).y = page.rectHeight - r.y0 - r.height ∧
      (processImage pageNum page img).width = r.width ∧
      (processImage pageNum page img).height = r.height) ∧
    (∀ r : FitzRect, img.rect = some r → (page.rotation = 90 ∨ page.rotation = 270) →
      (processImage pageNum page img).x = r.x0 ∧
      (processImage pageNum page img).y = r.y0 ∧
      (processImage pageNum page img).width = r.width ∧
      (processImage pageNum page img).height = r.height) ∧
    (img.rect = none →
      (processImage pageNum page img).x = 0 ∧
      (processImage pageNum page img).y = 0 ∧
      (processImage pageNum page img).width = img.pixWidth ∧
      (processImage pageNum page img).height = img.pixHeight) := by
  refine ⟨?_, ?_, ?_⟩
  · intro r hr hrot
    simp [processImage, hr, hrot]
  · intro r hr hrot
    have hne : ¬ page.rotation = 180 := by
      rcases hrot with h | h <;> rw [h] <;> decide
    simp [processImage, hr, hne]
  · intro hr
    simp [processImage, hr]

/-- The 180-degree page of the specification's end-to-end scenario:
600 × 800 page, placement rectangle (10, 20, 50, 30). -/
def c5Page : PageHandle := ⟨180, 600, 800, [⟨3, 0, 40, 40, some ⟨10, 20, 50, 30⟩⟩]⟩

/-- The same page declared at rotation 90. -/
def c5Page90 : PageHandle := ⟨90, 600, 800, []⟩

/-- An image reference with the scenario's placement rectangle. -/
def c5Img : PageImageRef := ⟨3, 0, 40, 40, some ⟨10, 20, 50, 30⟩⟩

/-- An image reference with no placement rectangle. -/
def c5ImgNone : PageImageRef := ⟨3, 0, 40, 40, none⟩

/-- Witness for C5: the scenario rectangle is corrected to (540, 750, 50,
30) under rotation 180, untouched under rotation 90, and the rect-less
image falls back to the origin with its pixel dimensions. -/
theorem image_position_rotation_cases_witness :
    ((processImage 1 c5Page c5Img).x = c5Page.rectWidth - (10 : ℚ) - 50 ∧
      (processImage 1 c5Page c5Img).y = c5Page.rectHeight - (20 : ℚ) - 30 ∧
      (processImage 1 c5Page c5Img).width = (50 : ℚ) ∧
      (processImage 1 c5Page c5Img).height = (30 : ℚ)) ∧
    ((processImage 2 c5Page90 c5Img).x = (10 : ℚ) ∧
      (processImage 2 c5Page90 c5Img).y = (20 : ℚ) ∧
      (processImage 2 c5Page90 c5Img).width = (50 : ℚ) ∧
      (processImage 2 c5Page90 c5Img).height = (30 : ℚ)) ∧
    ((processImage 3 c5Page90 c5ImgNone).x = 0 ∧
      (processImage 3 c5Page90 c5ImgNone).y = 0 ∧
      (processImage 3 c5Page90 c5ImgNone).width = c5ImgNone.pixWidth ∧
      (processImage 3 c5Page90 c5ImgNone).height = c5ImgNone.pixHeight) :=
  ⟨(image_position_rotation_cases 1 c5Page c5Img).1 ⟨10, 20, 50, 30⟩ rfl rfl,
   (image_position_rotation_cases 2 c5Page90 c5Img).2.1 ⟨10, 20, 50, 30⟩ rfl (Or.inl rfl),
   (image_position_rotation_cases 3 c5Page90 c5ImgNone).2.2 rfl⟩

/-- C6: the Image Normalizer rotates the decoded bitmap in the opposite
sense of the page rotation — 180 degrees yields a 180-degree rotation, 90
yields −90, 270 yields +90 — before re-encoding, and does not rotate at
all for rotation 0; the `pic_extract` variant applies the same angles. -/
theorem image_content_rotation_opposite (pageNum : Nat) (page : PageHandle)
    (img : PageImageRef) :
    (page.rotation = 180 → (processImage pageNum page img).appliedRot = some 180) ∧
    (page.rotation = 90 → (processImage pageNum page img).appliedRot = some (-90)) ∧
    (page.rotation = 270 → (processImage pageNum page img).appliedRot = some 90) ∧
    (page.rotation = 0 → (processImage pageNum page img).appliedRot = none) ∧
    pic_extract_applied_rotation 180 = 180 ∧
    pic_extract_applied_rotation 90 = -90 ∧
    pic_extract_applied_rotation 270 = 90 ∧
    pic_extract_applied_rotation 0 = 0 := by
  refine ⟨?_, ?_, ?_, ?_, by decide, by decide, by decide, by decide⟩ <;>
    intro h <;> rcases himg : img.rect with _ | r <;>
    simp [processImage, himg, h, rotatePILAngle]

/-- A page handle with the given declared rotation and no special content. -/
def pageRot (rot : Int) : PageHandle := ⟨rot, 600, 800, []⟩

/-- Witness for C6 at pages declared at 180, 90, 270 and 0 degrees. -/
theorem image_content_rotation_opposite_witness :
    (processImage 0 (pageRot 180) c5Img).appliedRot = some 180 ∧
    (processImage 0 (pageRot 90) c5Img).appliedRot = some (-90) ∧
    (processImage 0 (pageRot 270) c5Img).appliedRot = some 90 ∧
    (processImage 0 (pageRot 0) c5Img).appliedRot = none :=
  ⟨(image_content_rotation_opposite 0 (pageRot 180) c5Img).1 rfl,
   (image_content_rotation_opposite 0 (pageRot 90) c5Img).2.1 rfl,
   (image_content_rotation_opposite 0 (pageRot 270) c5Img).2.2.1 rfl,
   (image_content_rotation_opposite 0 (pageRot 0) c5Img).2.2.2.1 rfl⟩

/-! ### Constructor and OCR-fallback theorems (C9, C10) -/

/-- C9: for every input path that does not resolve to an existing file,
both constructors fail with a file-not-found error at construction time and
the whole operation ends with exit code 1 regardless of what the later
conversion or extraction would do; for every existing input path,
construction succeeds. -/
theorem init_requires_existing_input (fs : List String)
    (inputPdf outputHtml outPref : String)
    (convertResult : PDFToHTMLConverter → Option Unit)
    (extractResult : PDFImageExtractor → Option (List String)) :
    (inputPdf ∉ fs →
      PDFToHTMLConverter.init fs inputPdf outputHtml
          = Except.error (ConvError.fileNotFound inputPdf) ∧
      PDFImageExtractor.init fs inputPdf outPref
          = Except.error (ConvError.fileNotFound inputPdf) ∧
      pdf_to_html_main fs inputPdf outputHtml convertResult = 1 ∧
      pic_extract_main fs inputPdf outPref extractResult = 1) ∧
    (inputPdf ∈ fs →
      PDFToHTMLConverter.init fs inputPdf outputHtml
          = Except.ok { input_pdf_path := inputPdf, output_html_path := outputHtml,
                        text_blocks := [], images := [] } ∧
      PDFImageExtractor.init fs inputPdf outPref
          = Except.ok { input_pdf_path := inputPdf, outputPref := outPref }) := by
  constructor
  · intro h
    refine ⟨?_, ?_, ?_, ?_⟩ <;>
      simp [PDFToHTMLConverter.init, PDFImageExtractor.init,
        pdf_to_html_main, pic_extract_main, h]
  · intro h
    constructor <;> simp [PDFToHTMLConverter.init, PDFImageExtractor.init, h]

/-- Witness for C9: a missing path fails both constructions and both main
entry points; an existing path constructs successfully. -/
theorem init_requires_existing_input_witness :
    (PDFToHTMLConverter.init ["input.pdf"] "missing.pdf" "out.html"
        = Except.error (ConvError.fileNotFound "missing.pdf") ∧
      PDFImageExtractor.init ["input.pdf"] "missing.pdf" "pic"
        = Except.error (ConvError.fileNotFound "missing.pdf") ∧
      pdf_to_html_main ["input.pdf"] "missing.pdf" "out.html" (fun _ => some ()) = 1 ∧
      pic_extract_main ["input.pdf"] "missing.pdf" "pic" (fun _ => some []) = 1) ∧
    (PDFToHTMLConverter.init ["input.pdf"] "input.pdf" "out.html"
        = Except.ok { input_pdf_path := "input.pdf", output_html_path := "out.html",
                      text_blocks := [], images := [] } ∧
      PDFImageExtractor.init ["input.pdf"] "input.pdf" "pic"
        = Except.ok { input_pdf_path := "input.pdf", outputPref := "pic" }) :=
  ⟨(init_requires_existing_input ["input.pdf"] "missing.pdf" "out.html" "pic"
      (fun _ => some ()) (fun _ => some [])).1 (by decide),
   (init_requires_existing_input ["input.pdf"] "input.pdf" "out.html" "pic"
      (fun _ => some ()) (fun _ => some [])).2 (by decide)⟩

/-- C10: the OCR fallback is taken exactly when the text layer yields zero
fragments over the entire document; as soon as one page yields a text-layer
fragment, OCR is never invoked and the result is the text-layer extraction,
while a page with no characters contributes zero fragments. -/
theorem ocr_only_when_text_layer_empty (doc : List (List CharRec))
    (ocrBlocks : List PDFTextBlock) :
    (ocr_invoked doc = true ↔ extract_text_layer doc = []) ∧
    ((∃ pc ∈ doc.enum, groupChars pc.1 pc.2 ≠ []) →
      ocr_invoked doc = false ∧
      extract_text_with_positions doc ocrBlocks = extract_text_layer doc) ∧
    (∀ pc ∈ doc.enum, pc.2 = ([] : List CharRec) → groupChars pc.1 pc.2 = []) ∧
    (ocr_invoked doc = true → extract_text_with_positions doc ocrBlocks = ocrBlocks) := by
  refine ⟨by simp [ocr_invoked, List.isEmpty_iff], ?_, ?_, ?_⟩
  · rintro ⟨pc, hpc, hne⟩
    have hnenil : extract_text_layer doc ≠ [] := by
      intro hnil
      have hall := List.flatten_eq_nil_iff.mp hnil
      exact hne (hall _ (List.mem_map_of_mem (fun q => groupChars q.1 q.2) hpc))
    constructor
    · simp [ocr_invoked, List.isEmpty_iff, hnenil]
    · simp [extract_text_with_positions, List.isEmpty_iff, hnenil]
  · intro pc _ hpc2
    rw [hpc2]
    rfl
  · intro h
    have hnil : extract_text_layer doc = [] := by
      simpa [ocr_invoked, List.isEmpty_iff] using h
    simp [extract_text_with_positions, hnil]

/-- A two-page document whose first page has no characters and whose
second page has one character. -/
def c10Doc : List (List CharRec) := [[], [⟨"a", 1, 2, 3, 4⟩]]

/-- Witness for C10 at a document with one empty and one non-empty page:
OCR is not invoked, the empty page contributes nothing, and the result is
the text-layer extraction. -/
theorem ocr_only_when_text_layer_empty_witness :
    (ocr_invoked c10Doc = true ↔ extract_text_layer c10Doc = []) ∧
    (ocr_invoked c10Doc = false ∧
      extract_text_with_positions c10Doc [] = extract_text_layer c10Doc) ∧
    groupChars 0 ([] : List CharRec) = [] :=
  ⟨(ocr_only_when_text_layer_empty c10Doc []).1,
   (ocr_only_when_text_layer_empty c10Doc []).2.1 (by decide),
   (ocr_only_when_text_layer_empty c10Doc []).2.2.1 (0, []) (by decide) rfl⟩

/-! ### Rendering Assembler theorems (C7, C8) -/

theorem pageOfPart_textParts (tb : List PDFTextBlock) (p : Nat) :
    (((pageGroup tb p).filterMap fun b =>
        if pyStrip b.text ≠ "" then some (HtmlPart.textDiv b.text) else none).filterMap
      pageOfPart) = [] := by
  rw [List.filterMap_eq_nil_iff]
  intro x hx
  rcases List.mem_filterMap.mp hx with ⟨b, _, hbx⟩
  by_cases hs : pyStrip b.text ≠ ""
  · rw [if_pos hs] at hbx
    rw [← Option.some_inj.mp hbx]
    rfl
  · rw [if_neg hs] at hbx
    cases hbx

theorem containerPages_pageParts (tb : List PDFTextBlock) (p : Nat) :
    (pageParts tb p).filterMap pageOfPart = [p] := by
  show p :: ((((pageGroup tb p).filterMap fun b =>
      if pyStrip b.text ≠ "" then some (HtmlPart.textDiv b.text) else none)
        ++ [HtmlPart.pageClose]).filterMap pageOfPart) = [p]
  rw [List.filterMap_append, pageOfPart_textParts tb p]
  rfl

/-- The page containers of the generated content are exactly the sorted
text-page keys. -/
theorem containerPages_generate (tb : List PDFTextBlock) (imgs : List PDFImage) :
    containerPages (generate_html_parts tb imgs) = htmlPageKeys tb := by
  unfold containerPages generate_html_parts
  generalize htmlPageKeys tb = ks
  induction ks with
  | nil => rfl
  | cons k ks2 ih =>
    rw [List.map_cons, List.flatten_cons, List.filterMap_append, ih,
      containerPages_pageParts tb k]
    rfl

/-- C7 (amended): the page containers of the output are exactly the
distinct page indices present in the fragment collection, each exactly
once, in ascending numeric order, for every insertion order of the inputs;
page indices present only in the image collection contribute no container
(`generate_html` ignores its image argument). -/
theorem html_page_containers_from_text_pages (tb : List PDFTextBlock) (imgs : List PDFImage) :
    (containerPages (generate_html_parts tb imgs)).Nodup ∧
    List.Sorted (· ≤ ·) (containerPages (generate_html_parts tb imgs)) ∧
    ∀ p : Nat, p ∈ containerPages (generate_html_parts tb imgs) ↔ ∃ b ∈ tb, b.page = p := by
  rw [containerPages_generate tb imgs]
  unfold htmlPageKeys
  refine ⟨?_, ?_, ?_⟩
  · exact (List.perm_insertionSort _ _).nodup_iff.mpr (pageKeys_nodup tb)
  · exact List.sorted_insertionSort _ _
  · intro p
    rw [(List.perm_insertionSort _ _).mem_iff]
    exact mem_pageKeys

/-- The scenario image placed on page 0, as normalized. -/
def c7Image : PDFImage := ⟨some 180, false, 540, 750, 50, 30, 0⟩

/-- Counterexample to C7 as stated: with no fragments and one image on page
0, page 0 is present in the image collection yet `generate_html` emits no
page container at all. -/
theorem image_only_page_missing_container :
    c7Image.page ∉ containerPages (generate_html_parts [] [c7Image]) ∧
    generate_html_parts [] [c7Image] = [] := by decide

/-- The text blocks of the repository's `test_generate_html`, plus one
all-whitespace fragment. -/
def c8Blocks : List PDFTextBlock :=
  [⟨"Hello", 10, 20, 100, 15, 0⟩, ⟨"World", 10, 40, 100, 15, 0⟩, ⟨" ", 10, 60, 100, 15, 0⟩]

/-- The image of the repository's `test_generate_html` (page 0). -/
def c8Image : PDFImage := ⟨none, false, 50, 60, 200, 150, 0⟩

/-- C8 evaluated at the `test_generate_html` input (with an extra blank
fragment): the page container holds one text element per non-blank
fragment, the blank fragment is suppressed, and no image element of any
kind is produced for the page's image — although the repository's tests
assert that a base64 data-URI image element must appear.  `HtmlPart`, the
content grammar of `generate_html`, has no image element constructor
because the loop never emits one. -/
theorem generate_html_ignores_images_on_test_input :
    generate_html_parts c8Blocks [c8Image]
      = [HtmlPart.pageOpen 0, HtmlPart.pageHeader 0, HtmlPart.textDiv "Hello",
         HtmlPart.textDiv "World", HtmlPart.pageClose] := by decide

end JPdf
